import Mathlib

/-!
Verification development for the Doubly-Stochastic Deep Gaussian Process
model (`doubly_stochastic_dgp/dgp.py`).

Tensors are shallow-embedded as nested lists: a 2-D tensor is a list of
rows, a 3-D tensor is a list of 2-D slices, the leading axis being the
Monte-Carlo sample axis.  External collaborators (the SVGP layer
capability, the broadcasting likelihood capability, numpy's SVD routine,
and gpflow's seeded minibatch index stream) are modelled as opaque
function parameters; the properties the code relies on appear as explicit
hypotheses on those parameters.  Exact rational arithmetic stands in for
floating point, and real numbers for the logarithmic computations of
`predict_density`.
-/

namespace DSDGP

/-- A 2-D tensor: a list of rows. -/
abbrev Mat (α : Type) := List (List α)

/-- A 3-D tensor: a list of 2-D slices along the leading (sample) axis. -/
abbrev T3 (α : Type) := List (Mat α)

/-- The layer capability consumed by `DGP_Base`: `sample_from_conditional`
takes the incoming sample tensor, an optional noise tensor `z` and the
`full_cov` flag, and returns the new sample tensor together with the
pre-sample mean and variance tensors; `KL` is the layer's KL divergence. -/
structure Layer (α : Type) where
  sample_from_conditional : T3 α → Option (T3 α) → Bool → T3 α × T3 α × T3 α
  KL : α

/-- The loop body of `DGP_Base.propagate`: thread the running sample
tensor `F` through the zipped list of layers and per-layer noises,
accumulating samples, means and variances, one triple per iteration. -/
def propLoop {α : Type} (full_cov : Bool) :
    List (Layer α × Option (T3 α)) → T3 α → List (T3 α) × List (T3 α) × List (T3 α)
  | [], _ => ([], [], [])
  | (layer, z) :: rest, F =>
    let r := layer.sample_from_conditional F z full_cov
    let t := propLoop full_cov rest r.1
    (r.1 :: t.1, r.2.1 :: t.2.1, r.2.2 :: t.2.2)

/-- `DGP_Base.propagate`: tile the 2-D input into `S` copies along a new
leading sample axis, replace a missing or empty `zs` by one `None` per
layer (Python's `zs or [None] * len(self.layers)`), and run the layer
loop over `zip(self.layers, zs)`. -/
def propagate {α : Type} (layers : List (Layer α)) (X : Mat α)
    (full_cov : Bool) (S : Nat) (zs : Option (List (Option (T3 α)))) :
    List (T3 α) × List (T3 α) × List (T3 α) :=
  let sX : T3 α := List.replicate S X
  let zsEff : List (Option (T3 α)) :=
    match zs with
    | none => List.replicate layers.length none
    | some l => if l.isEmpty then List.replicate layers.length none else l
  propLoop full_cov (layers.zip zsEff) sX

/-- `DGP_Base._build_predict`: propagate with the given `full_cov` and
`S` (no explicit `zs`), and return the final layer's mean and variance. -/
def build_predict {α : Type} (layers : List (Layer α)) (X : Mat α)
    (full_cov : Bool) (S : Nat) : T3 α × T3 α :=
  let r := propagate layers X full_cov S none
  (r.2.1.getLastD [], r.2.2.getLastD [])

/-- `tf.reduce_mean(var_exp, 0)`: the mean over the leading sample axis,
producing a 2-D tensor indexed (data point, output dimension); the
output shape is the shape of the slices (read off the first slice, as
the tensors involved are rectangular). -/
def reduceMean0 (t : T3 ℚ) : Mat ℚ :=
  (List.range (t.headD []).length).map (fun n =>
    (List.range ((t.headD []).getD n []).length).map (fun d =>
      (t.map (fun s => (s.getD n []).getD d 0)).sum / (t.length : ℚ)))

/-- `tf.reduce_sum` of a 2-D tensor: the sum of all entries. -/
def sum2 (M : Mat ℚ) : ℚ :=
  (M.map List.sum).sum

/-- `DGP_Base.E_log_p_Y`: propagate with `full_cov = False` and
`S = num_samples`, feed the final layer's mean and variance (with the
targets) to the likelihood capability's `variational_expectations`
(an opaque parameter `varExp` producing an `S × N × D` tensor), and
average over the sample axis. -/
def E_log_p_Y (varExp : T3 ℚ → T3 ℚ → Mat ℚ → T3 ℚ)
    (layers : List (Layer ℚ)) (X Y : Mat ℚ) (num_samples : Nat) : Mat ℚ :=
  let p := build_predict layers X false num_samples
  reduceMean0 (varExp p.1 p.2 Y)

/-- `DGP_Base._build_likelihood`: sum `E_log_p_Y` over data points and
output dimensions, subtract the summed per-layer KLs, after rescaling by
`num_data / (current batch row count)`. -/
def build_likelihood (varExp : T3 ℚ → T3 ℚ → Mat ℚ → T3 ℚ)
    (layers : List (Layer ℚ)) (X Y : Mat ℚ)
    (num_samples num_data : Nat) : ℚ :=
  let L := sum2 (E_log_p_Y varExp layers X Y num_samples)
  let KL := (layers.map Layer.KL).sum
  let scale : ℚ := (num_data : ℚ) / (X.length : ℚ)
  L * scale - KL

/-- The `variational_expectations` tensor that `_build_likelihood`
feeds to the sample-axis mean: the likelihood capability applied to the
final layer's mean and variance and the targets. -/
def varexpT (varExp : T3 ℚ → T3 ℚ → Mat ℚ → T3 ℚ)
    (layers : List (Layer ℚ)) (X Y : Mat ℚ) (num_samples : Nat) : T3 ℚ :=
  varExp (build_predict layers X false num_samples).1
    (build_predict layers X false num_samples).2 Y

/-- A 3-D tensor is rectangular of shape `S × N × D`. -/
def WF3 {α : Type} (t : T3 α) (S N D : Nat) : Prop :=
  t.length = S ∧ ∀ s ∈ t, s.length = N ∧ ∀ r ∈ s, r.length = D

instance {α : Type} (t : T3 α) (S N D : Nat) : Decidable (WF3 t S N D) := by
  unfold WF3; infer_instance

noncomputable section

/-- `tf.reduce_logsumexp` of a list of reals: the logarithm of the sum
of the exponentials. -/
def logsumexp (xs : List ℝ) : ℝ :=
  Real.log ((xs.map Real.exp).sum)

/-- `tf.reduce_logsumexp(·, axis=0)`: pointwise log-sum-exp over the
leading sample axis of an `S × N × D` tensor, giving an `N × D` tensor
(shape read off the first slice, the tensors being rectangular). -/
def reduceLSE0 (t : T3 ℝ) : Mat ℝ :=
  (List.range (t.headD []).length).map (fun n =>
    (List.range ((t.headD []).getD n []).length).map (fun d =>
      logsumexp (t.map (fun s => (s.getD n []).getD d 0))))

/-- `DGP_Base.predict_density`: per-sample log predictive densities from
the likelihood capability (opaque parameter `likDensity`, producing an
`S × N × D` tensor from the final layer's mean and variance and the
targets), shifted by `-log(num_samples)` and combined by log-sum-exp
over the sample axis. -/
def predict_density (likDensity : T3 ℝ → T3 ℝ → Mat ℝ → T3 ℝ)
    (layers : List (Layer ℝ)) (Xnew Ynew : Mat ℝ) (num_samples : Nat) : Mat ℝ :=
  let p := build_predict layers Xnew false num_samples
  let l := likDensity p.1 p.2 Ynew
  reduceLSE0 (l.map (fun s => s.map (fun r =>
    r.map (fun x => x - Real.log (num_samples : ℝ)))))

end

/-- A 2-D rational matrix (numpy arrays in the builder). -/
abbrev MatQ := Mat ℚ

/-- Column count of a matrix, read off its first row. -/
def colsM (M : MatQ) : Nat :=
  (M.headD []).length

/-- Column `j` of a matrix. -/
def colM (M : MatQ) (j : Nat) : List ℚ :=
  M.map (fun r => r.getD j 0)

/-- Row `i` of a matrix. -/
def rowM (M : MatQ) (i : Nat) : List ℚ :=
  M.getD i []

/-- Dot product of two vectors. -/
def dotV (u v : List ℚ) : ℚ :=
  (List.zipWith (fun a b => a * b) u v).sum

/-- Matrix transpose (`.T` on a rectangular numpy array). -/
def transposeM (M : MatQ) : MatQ :=
  (List.range (colsM M)).map (fun j => colM M j)

/-- `np.eye dim`: the identity matrix. -/
def eyeM (dim : Nat) : MatQ :=
  (List.range dim).map (fun i =>
    (List.range dim).map (fun j => if i = j then (1 : ℚ) else 0))

/-- `np.zeros (m, n)`. -/
def zerosM (m n : Nat) : MatQ :=
  List.replicate m (List.replicate n 0)

/-- `np.concatenate([A, B], 1)`: horizontal concatenation. -/
def hconcat (A B : MatQ) : MatQ :=
  List.zipWith (fun r s => r ++ s) A B

/-- Matrix product `A.dot B` (column count of the result read off `B`). -/
def matMul (A B : MatQ) : MatQ :=
  A.map (fun row => (List.range (colsM B)).map (fun j => dotV row (colM B j)))

/-- A kernel capability: the builder reads only its `input_dim`. -/
structure Kernel where
  input_dim : Nat
deriving DecidableEq

/-- The mean function attached to a layer: `Identity()`, a `Linear(W)`
with its trainable flag, or `Zero()`. -/
inductive MF where
  | identity : MF
  | linear : MatQ → Bool → MF
  | zero : MF
deriving DecidableEq

/-- The argument tuple `SVGP_Layer(kern, Z, dim_out, mean_function)`
with which the builder constructs a layer. -/
structure BuiltLayer where
  kern : Kernel
  Z : MatQ
  dimOut : Nat
  mf : MF
deriving DecidableEq

/-- The weight matrix `W` the builder computes for a dimension-changing
transition: stepping down, the transpose of the top `dout` rows of the
SVD right-factor `Vh` of the running data matrix (`np.linalg.svd`, an
opaque parameter `svd` returning `Vh`); stepping up, the identity padded
on the right with zeros. -/
def stepW (svd : MatQ → MatQ) (X_running : MatQ) (din dout : Nat) : MatQ :=
  if din > dout then transposeM ((svd X_running).take dout)
  else hconcat (eyeM din) (zerosM din (dout - din))

/-- The mean function for an adjacent kernel pair: `Identity` when the
input dimensions match, otherwise the fixed non-trainable `Linear W`. -/
def stepMF (svd : MatQ → MatQ) (X_running : MatQ) (din dout : Nat) : MF :=
  if din = dout then MF.identity
  else MF.linear (stepW svd X_running din dout) false

/-- The update of the running data and inducing-location matrices after
a transition: both projected through `W` when the dimensions differ,
unchanged otherwise. -/
def stepRun (svd : MatQ → MatQ) (X_running Z_running : MatQ)
    (din dout : Nat) : MatQ × MatQ :=
  if din = dout then (X_running, Z_running)
  else (matMul X_running (stepW svd X_running din dout),
        matMul Z_running (stepW svd X_running din dout))

/-- The inner-layer loop of `DGP.__init__`: for each adjacent kernel
pair, build the mean function from the running data matrix, construct
the layer with the current (pre-update) running inducing locations, and
then update both running matrices.  Returns the layer list together
with the final running matrices. -/
def innerLoop (svd : MatQ → MatQ) :
    MatQ → MatQ → List (Kernel × Kernel) → List BuiltLayer × MatQ × MatQ
  | X_running, Z_running, [] => ([], X_running, Z_running)
  | X_running, Z_running, (kin, kout) :: rest =>
    let din := kin.input_dim
    let dout := kout.input_dim
    let layer : BuiltLayer := ⟨kin, Z_running, dout, stepMF svd X_running din dout⟩
    let upd := stepRun svd X_running Z_running din dout
    let t := innerLoop svd upd.1 upd.2 rest
    (layer :: t.1, t.2)

/-- The running (data, inducing) matrices after the builder has
processed a prefix of the adjacent kernel pairs. -/
def runState (svd : MatQ → MatQ) :
    MatQ → MatQ → List (Kernel × Kernel) → MatQ × MatQ
  | X_running, Z_running, [] => (X_running, Z_running)
  | X_running, Z_running, (kin, kout) :: rest =>
    let upd := stepRun svd X_running Z_running kin.input_dim kout.input_dim
    runState svd upd.1 upd.2 rest

/-- Errors a `DGP` construction can surface: the low-level Python
`IndexError` (from `kernels[-1]` on an empty list), or a descriptive
configuration error (no code path produces one). -/
inductive PyErr where
  | indexError : PyErr
  | configError : String → PyErr
deriving DecidableEq

/-- Whether a construction result failed with a descriptive
configuration error. -/
def IsConfigError (r : Except PyErr (List BuiltLayer)) : Prop :=
  ∃ msg, r = Except.error (PyErr.configError msg)

instance (r : Except PyErr (List BuiltLayer)) : Decidable (IsConfigError r) := by
  unfold IsConfigError
  match r with
  | Except.ok _ => exact isFalse (by simp)
  | Except.error PyErr.indexError => exact isFalse (by simp)
  | Except.error (PyErr.configError m) => exact isTrue ⟨m, rfl⟩

/-- `DGP.__init__`'s layer construction: run the inner loop over the
adjacent kernel pairs (`zip(kernels[:-1], kernels[1:])`, modelled as
`kernels.zip kernels.tail`), then append the final layer built from the
last kernel, the final running inducing locations, the output count
(`num_outputs or Y.shape[1]`, `0` being falsy) and the caller-supplied
mean function.  Accessing the last kernel of an empty list raises
Python's `IndexError`. -/
def buildDGP (svd : MatQ → MatQ) (X Y Z : MatQ) (kernels : List Kernel)
    (num_outputs : Option Nat) (mean_function : MF) :
    Except PyErr (List BuiltLayer) :=
  let nOut := match num_outputs with
    | none => colsM Y
    | some n => if n = 0 then colsM Y else n
  let t := innerLoop svd X Z (kernels.zip kernels.tail)
  match kernels.getLast? with
  | none => Except.error PyErr.indexError
  | some k => Except.ok (t.1 ++ [⟨k, t.2.2, nOut, mean_function⟩])

/-- Columns `i` and `j` of `W`, for `i, j < k`, are unit-norm and
mutually orthogonal. -/
def OrthoCols (W : MatQ) (k : Nat) : Prop :=
  ∀ i < k, ∀ j < k, dotV (colM W i) (colM W j) = if i = j then 1 else 0

/-- Rows `i` and `j` of `V`, for `i, j < k`, are unit-norm and mutually
orthogonal (the contract of the SVD right-factor `Vh`). -/
def OrthoRows (V : MatQ) (k : Nat) : Prop :=
  ∀ i < k, ∀ j < k, dotV (rowM V i) (rowM V j) = if i = j then 1 else 0

instance (W : MatQ) (k : Nat) : Decidable (OrthoCols W k) := by
  unfold OrthoCols; infer_instance

instance (V : MatQ) (k : Nat) : Decidable (OrthoRows V k) := by
  unfold OrthoRows; infer_instance

/-- The data holders `DGP_Base.__init__` installs: a plain `DataHolder`
or a seeded `Minibatch`.

Modelled from the spec: the gpflow `Minibatch` data holder is external
to the repository; per the spec's dataset-provider interface it is a
"randomized minibatch mode with a configurable batch size and
deterministic seed", so the rows it yields at draw step `t` are the rows
of the held matrix selected by an index stream determined by
`(seed, batch_size, t)` — the stream itself is an opaque parameter. -/
inductive DataSrc where
  | holder : MatQ → DataSrc
  | minibatch : MatQ → Nat → Nat → DataSrc
deriving DecidableEq

/-- The batch a data holder yields at draw step `t`, given the opaque
deterministic index-stream generator `gen : seed → batch_size → t →
indices`. -/
def DataSrc.current (gen : Nat → Nat → Nat → List Nat) (t : Nat) :
    DataSrc → MatQ
  | DataSrc.holder d => d
  | DataSrc.minibatch d bs seed => (gen seed bs t).map (fun j => d.getD j [])

/-- The data-holder pair `DGP_Base.__init__` builds: with a truthy
`minibatch_size`, two `Minibatch` holders both seeded with `0`;
otherwise two plain `DataHolder`s. -/
def dgpBaseHolders (X Y : MatQ) (minibatch_size : Option Nat) :
    DataSrc × DataSrc :=
  match minibatch_size with
  | some m =>
    if m ≠ 0 then (DataSrc.minibatch X m 0, DataSrc.minibatch Y m 0)
    else (DataSrc.holder X, DataSrc.holder Y)
  | none => (DataSrc.holder X, DataSrc.holder Y)

/-- Placeholder layer tuple used as a `getD` default. -/
def dummyBL : BuiltLayer :=
  ⟨⟨0⟩, [], 0, MF.zero⟩

/-- Placeholder kernel pair used as a `getD` default. -/
def dummyKK : Kernel × Kernel :=
  (⟨0⟩, ⟨0⟩)

/-- The adjacent kernel pair at position `i`. -/
def pairAt (pairs : List (Kernel × Kernel)) (i : Nat) : Kernel × Kernel :=
  pairs.getD i dummyKK

/-- The per-sample log predictive density tensor `predict_density` feeds
to the log-sum-exp combination: the likelihood capability applied to the
final layer's mean and variance and the targets. -/
def likT (likDensity : T3 ℝ → T3 ℝ → Mat ℝ → T3 ℝ)
    (layers : List (Layer ℝ)) (Xnew Ynew : Mat ℝ) (S : Nat) : T3 ℝ :=
  likDensity (build_predict layers Xnew false S).1
    (build_predict layers Xnew false S).2 Ynew

/-! ### Helper lemmas -/

theorem sum_range_map {M : Type} [AddCommMonoid M] (f : Nat → M) (n : Nat) :
    ((List.range n).map f).sum = ∑ i ∈ Finset.range n, f i := by
  induction n with
  | zero => simp
  | succ k ih =>
    rw [List.range_succ, List.map_append, List.sum_append,
      Finset.sum_range_succ, ih]
    simp

theorem sum_map_getD {α : Type} {M : Type} [AddCommMonoid M]
    (l : List α) (f : α → M) (d : α) :
    (l.map f).sum = ∑ i ∈ Finset.range l.length, f (l.getD i d) := by
  induction l with
  | nil => simp
  | cons a t ih =>
    rw [List.map_cons, List.sum_cons, List.length_cons,
      Finset.sum_range_succ' (fun i => f ((a :: t).getD i d)) t.length]
    simp only [List.getD_cons_succ, List.getD_cons_zero]
    rw [ih, add_comm]

theorem range_map_getD {α : Type} (r : List α) (d : α) :
    (List.range r.length).map (fun i => r.getD i d) = r := by
  apply List.ext_getElem
  · simp
  · intro i h1 h2
    simp only [List.getElem_map, List.getElem_range]
    exact List.getD_eq_getElem r d h2

theorem zip_replicate_right {α β : Type} (l : List α) (b : β) :
    l.zip (List.replicate l.length b) = l.map (fun a => (a, b)) := by
  induction l with
  | nil => rfl
  | cons a t ih => simpa [List.replicate_succ] using ih

theorem propLoop_length {α : Type} (fc : Bool) :
    ∀ (pairs : List (Layer α × Option (T3 α))) (F : T3 α),
    (propLoop fc pairs F).1.length = pairs.length ∧
    (propLoop fc pairs F).2.1.length = pairs.length ∧
    (propLoop fc pairs F).2.2.length = pairs.length := by
  intro pairs
  induction pairs with
  | nil => intro F; simp [propLoop]
  | cons p rest ih =>
    intro F
    obtain ⟨p1, p2⟩ := p
    simpa [propLoop] using ih (p1.sample_from_conditional F p2 fc).1

theorem propLoop_get {α : Type} (fc : Bool) :
    ∀ (pairs : List (Layer α × Option (T3 α))) (F : T3 α) (i : Nat)
      (h : i < pairs.length),
    (propLoop fc pairs F).1.getD i [] =
      ((pairs.get ⟨i, h⟩).1.sample_from_conditional
        (if i = 0 then F else (propLoop fc pairs F).1.getD (i - 1) [])
        (pairs.get ⟨i, h⟩).2 fc).1 ∧
    (propLoop fc pairs F).2.1.getD i [] =
      ((pairs.get ⟨i, h⟩).1.sample_from_conditional
        (if i = 0 then F else (propLoop fc pairs F).1.getD (i - 1) [])
        (pairs.get ⟨i, h⟩).2 fc).2.1 ∧
    (propLoop fc pairs F).2.2.getD i [] =
      ((pairs.get ⟨i, h⟩).1.sample_from_conditional
        (if i = 0 then F else (propLoop fc pairs F).1.getD (i - 1) [])
        (pairs.get ⟨i, h⟩).2 fc).2.2 := by
  intro pairs
  induction pairs with
  | nil => intro F i h; exact absurd h (by simp)
  | cons p rest ih =>
    intro F i h
    obtain ⟨p1, p2⟩ := p
    match i with
    | 0 => simp [propLoop]
    | j + 1 =>
      have hj : j < rest.length := by simpa using h
      have := ih (p1.sample_from_conditional F p2 fc).1 j hj
      match j with
      | 0 => simpa [propLoop] using this
      | k + 1 => simpa [propLoop] using this

theorem propLoop_sample_len {α : Type} (fc : Bool) :
    ∀ (pairs : List (Layer α × Option (T3 α))) (F : T3 α),
    (∀ p ∈ pairs, ∀ (G : T3 α) (z : Option (T3 α)) (c : Bool),
      ((p.1.sample_from_conditional G z c).1).length = G.length) →
    ∀ i, i < pairs.length → ((propLoop fc pairs F).1.getD i []).length = F.length := by
  intro pairs
  induction pairs with
  | nil => intro F _ i h; exact absurd h (by simp)
  | cons p rest ih =>
    intro F hpres i h
    obtain ⟨p1, p2⟩ := p
    have hhead : ((p1.sample_from_conditional F p2 fc).1).length = F.length :=
      hpres (p1, p2) (by simp) F p2 fc
    match i with
    | 0 => simpa [propLoop]
    | j + 1 =>
      have hj : j < rest.length := by simpa using h
      have := ih (p1.sample_from_conditional F p2 fc).1
        (fun q hq => hpres q (by simp [hq])) j hj
      simpa [propLoop, hhead] using this

theorem propagate_none {α : Type} (layers : List (Layer α)) (X : Mat α)
    (fc : Bool) (S : Nat) :
    propagate layers X fc S none =
      propLoop fc (layers.map (fun l => (l, none))) (List.replicate S X) := by
  show propLoop fc (layers.zip (List.replicate layers.length none))
    (List.replicate S X) = _
  rw [zip_replicate_right]

theorem innerLoop_length (svd : MatQ → MatQ) :
    ∀ (pairs : List (Kernel × Kernel)) (X Z : MatQ),
    (innerLoop svd X Z pairs).1.length = pairs.length := by
  intro pairs
  induction pairs with
  | nil => intro X Z; rfl
  | cons p rest ih =>
    intro X Z
    obtain ⟨kin, kout⟩ := p
    simpa [innerLoop] using ih _ _

theorem innerLoop_get (svd : MatQ → MatQ) :
    ∀ (pairs : List (Kernel × Kernel)) (X Z : MatQ) (i : Nat),
    i < pairs.length →
    (innerLoop svd X Z pairs).1.getD i dummyBL =
      ⟨(pairAt pairs i).1,
       (runState svd X Z (pairs.take i)).2,
       (pairAt pairs i).2.input_dim,
       stepMF svd (runState svd X Z (pairs.take i)).1
         (pairAt pairs i).1.input_dim (pairAt pairs i).2.input_dim⟩ := by
  intro pairs
  induction pairs with
  | nil => intro X Z i h; exact absurd h (by simp)
  | cons p rest ih =>
    intro X Z i h
    obtain ⟨kin, kout⟩ := p
    match i with
    | 0 => simp [innerLoop, pairAt, runState]
    | j + 1 =>
      have hj : j < rest.length := by simpa using h
      have := ih (stepRun svd X Z kin.input_dim kout.input_dim).1
        (stepRun svd X Z kin.input_dim kout.input_dim).2 j hj
      simpa [innerLoop, pairAt, runState] using this

theorem runState_take_succ (svd : MatQ → MatQ) :
    ∀ (pairs : List (Kernel × Kernel)) (X Z : MatQ) (i : Nat),
    i < pairs.length →
    runState svd X Z (pairs.take (i + 1)) =
      stepRun svd (runState svd X Z (pairs.take i)).1
        (runState svd X Z (pairs.take i)).2
        (pairAt pairs i).1.input_dim (pairAt pairs i).2.input_dim := by
  intro pairs
  induction pairs with
  | nil => intro X Z i h; exact absurd h (by simp)
  | cons p rest ih =>
    intro X Z i h
    obtain ⟨kin, kout⟩ := p
    match i with
    | 0 => simp [runState, pairAt]
    | j + 1 =>
      have hj : j < rest.length := by simpa using h
      have := ih (stepRun svd X Z kin.input_dim kout.input_dim).1
        (stepRun svd X Z kin.input_dim kout.input_dim).2 j hj
      simpa [runState, pairAt] using this

theorem colM_transposeM (M : MatQ) (j : Nat) (hj : j < M.length)
    (hlen : (rowM M j).length = colsM M) :
    colM (transposeM M) j = rowM M j := by
  unfold colM transposeM
  rw [List.map_map]
  have hfun : ((fun r => r.getD j 0) ∘ colM M) = fun q => (rowM M j).getD q 0 := by
    funext q
    simp only [Function.comp]
    unfold colM rowM
    rw [List.getD_eq_getElem _ _ (by simpa using hj), List.getElem_map]
    rw [List.getD_eq_getElem _ _ hj]
  rw [hfun, ← hlen]
  exact range_map_getD _ _

theorem rowM_take (M : MatQ) (k i : Nat) (hik : i < k) (hiM : i < M.length) :
    rowM (M.take k) i = rowM M i := by
  unfold rowM
  rw [List.getD_eq_getElem _ _ (by simp; omega),
    List.getD_eq_getElem _ _ hiM]
  exact List.getElem_take _

theorem colsM_take (M : MatQ) (k : Nat) (hk : 0 < k) :
    colsM (M.take k) = colsM M := by
  cases M with
  | nil => simp
  | cons r t =>
    cases k with
    | zero => omega
    | succ k2 => rfl

theorem stepW_ortho (V : MatQ) (dout : Nat)
    (hrect : ∀ r ∈ V, r.length = colsM V)
    (hlen : dout ≤ V.length)
    (hortho : OrthoRows V V.length) :
    OrthoCols (transposeM (V.take dout)) dout := by
  intro i hi j hj
  have hdout : 0 < dout := by omega
  have hTlen : (V.take dout).length = dout := by
    rw [List.length_take]; omega
  have hcols : colsM (V.take dout) = colsM V := colsM_take V dout hdout
  have hrow : ∀ q, q < dout →
      rowM (V.take dout) q = rowM V q ∧ (rowM (V.take dout) q).length = colsM (V.take dout) := by
    intro q hq
    have hqV : q < V.length := by omega
    have h1 : rowM (V.take dout) q = rowM V q := rowM_take V dout q hq hqV
    refine ⟨h1, ?_⟩
    rw [h1, hcols]
    refine hrect _ ?_
    unfold rowM
    rw [List.getD_eq_getElem _ _ hqV]
    exact List.getElem_mem _
  rw [colM_transposeM _ i (by omega : i < (V.take dout).length) (hrow i hi).2,
    colM_transposeM _ j (by omega : j < (V.take dout).length) (hrow j hj).2,
    (hrow i hi).1, (hrow j hj).1]
  exact hortho i (by omega) j (by omega)

theorem colsM_stepW (svd : MatQ → MatQ) (X : MatQ) (din dout : Nat)
    (hdin : 0 < din)
    (hVlen : dout ≤ (svd X).length)
    (hVc : 0 < colsM (svd X)) :
    colsM (stepW svd X din dout) = dout := by
  unfold stepW
  by_cases hgt : din > dout
  · rw [if_pos hgt]
    by_cases hd0 : dout = 0
    · subst hd0
      simp [transposeM, colsM]
    · have hdout : 0 < dout := Nat.pos_of_ne_zero hd0
      have hcols : colsM ((svd X).take dout) = colsM (svd X) :=
        colsM_take _ _ hdout
      have hTlen : ((svd X).take dout).length = dout := by
        rw [List.length_take]; omega
      obtain ⟨c2, hc⟩ : ∃ c2, colsM ((svd X).take dout) = c2 + 1 :=
        ⟨colsM (svd X) - 1, by omega⟩
      show colsM (transposeM ((svd X).take dout)) = dout
      unfold transposeM
      rw [hc, List.range_succ_eq_map]
      simp only [List.map_cons]
      show (colM ((svd X).take dout) 0).length = dout
      unfold colM
      rw [List.length_map]
      exact hTlen
  · rw [if_neg hgt]
    have hle : din ≤ dout := by omega
    have h1 : 0 < (eyeM din).length := by
      unfold eyeM; rw [List.length_map, List.length_range]; omega
    have h2 : 0 < (zerosM din (dout - din)).length := by
      unfold zerosM; rw [List.length_replicate]; omega
    have hr : (eyeM din).headD [] = (List.range din).map
        (fun j => if 0 = j then (1 : ℚ) else 0) := by
      obtain ⟨d2, hd2⟩ : ∃ d2, din = d2 + 1 := ⟨din - 1, by omega⟩
      rw [hd2]
      unfold eyeM
      rw [List.range_succ_eq_map]
      simp only [List.map_cons, List.headD_cons]
    have hs : (zerosM din (dout - din)).headD [] =
        List.replicate (dout - din) (0 : ℚ) := by
      obtain ⟨d2, hd2⟩ : ∃ d2, din = d2 + 1 := ⟨din - 1, by omega⟩
      rw [hd2]
      unfold zerosM
      rw [List.replicate_succ]
      simp only [List.headD_cons]
    match he : eyeM din, hz : zerosM din (dout - din) with
    | [], _ => rw [he] at h1; simp at h1
    | _ :: _, [] => rw [hz] at h2; simp at h2
    | r :: rt, s :: st =>
      unfold hconcat
      simp only [List.zipWith_cons_cons]
      show (r ++ s).length = dout
      rw [List.length_append]
      have hr2 : r.length = din := by
        have : r = (List.range din).map (fun j => if 0 = j then (1 : ℚ) else 0) := by
          rw [← hr, he]; rfl
        rw [this, List.length_map, List.length_range]
      have hs2 : s.length = dout - din := by
        have : s = List.replicate (dout - din) (0 : ℚ) := by
          rw [← hs, hz]; rfl
        rw [this, List.length_replicate]
      rw [hr2, hs2]; omega

theorem sum2_reduceMean0 (t : T3 ℚ) (S N D : Nat) (hS : 1 ≤ S)
    (hwf : WF3 t S N D) :
    sum2 (reduceMean0 t) =
      ∑ n ∈ Finset.range N, ∑ d ∈ Finset.range D,
        (∑ s ∈ Finset.range S, ((t.getD s []).getD n []).getD d 0) / (S : ℚ) := by
  obtain ⟨hlen, hsl⟩ := hwf
  have ht : t.headD [] ∈ t := by
    cases t with
    | nil => rw [List.length_nil] at hlen; omega
    | cons a l => simp
  have hN : (t.headD []).length = N := (hsl _ ht).1
  have hrow : ∀ n, n < N → ((t.headD []).getD n []).length = D := by
    intro n hn
    refine (hsl _ ht).2 _ ?_
    rw [List.getD_eq_getElem _ _ (hN ▸ hn)]
    exact List.getElem_mem _
  unfold sum2 reduceMean0
  rw [List.map_map, hN, sum_range_map]
  apply Finset.sum_congr rfl
  intro n hn
  have hn' : n < N := Finset.mem_range.mp hn
  simp only [Function.comp]
  rw [hrow n hn', sum_range_map]
  apply Finset.sum_congr rfl
  intro d _
  rw [sum_map_getD t _ [], hlen]

/-! ### Claim theorems -/

/-- C1: the training objective `_build_likelihood` equals
`L * scale - KL`, where `L` sums, over data points and output
dimensions, the per-point average over the sample axis of the
variational expectations evaluated at the final layer's mean and
variance from a `full_cov = False`, `S = num_samples` propagation of the
current batch; `KL` is the sum of the per-layer KL divergences; and
`scale = num_data / (batch row count)`, which is exactly `1` when the
batch is the full dataset. -/
theorem dgp_C1 (varExp : T3 ℚ → T3 ℚ → Mat ℚ → T3 ℚ)
    (layers : List (Layer ℚ)) (X Y : Mat ℚ) (S N D num_data : Nat)
    (hS : 1 ≤ S) (hwf : WF3 (varexpT varExp layers X Y S) S N D) :
    build_likelihood varExp layers X Y S num_data =
      (∑ n ∈ Finset.range N, ∑ d ∈ Finset.range D,
        (∑ s ∈ Finset.range S,
          (((varexpT varExp layers X Y S).getD s []).getD n []).getD d 0)
          / (S : ℚ))
      * ((num_data : ℚ) / (X.length : ℚ))
      - (layers.map Layer.KL).sum
    ∧ (X.length = num_data → 0 < num_data →
        build_likelihood varExp layers X Y S num_data =
          (∑ n ∈ Finset.range N, ∑ d ∈ Finset.range D,
            (∑ s ∈ Finset.range S,
              (((varexpT varExp layers X Y S).getD s []).getD n []).getD d 0)
              / (S : ℚ))
          - (layers.map Layer.KL).sum) := by
  have hmain : build_likelihood varExp layers X Y S num_data =
      sum2 (reduceMean0 (varexpT varExp layers X Y S))
        * ((num_data : ℚ) / (X.length : ℚ))
      - (layers.map Layer.KL).sum := rfl
  rw [hmain, sum2_reduceMean0 _ S N D hS hwf]
  refine ⟨rfl, ?_⟩
  intro heq hpos
  rw [← heq]
  have hx : (X.length : ℚ) ≠ 0 := by
    rw [heq]
    exact_mod_cast Nat.pos_iff_ne_zero.mp hpos
  rw [div_self hx, mul_one]

/-- Witness for C1: a one-layer model on a single data point with
`S = 1`, the likelihood capability returning the propagated mean. -/
theorem dgp_C1_witness :
    WF3 (varexpT (fun Fm _ _ => Fm)
        [(⟨fun F _ _ => (F, F, F), (2 : ℚ)⟩ : Layer ℚ)] [[1]] [[1]] 1) 1 1 1 ∧
    build_likelihood (fun Fm _ _ => Fm)
        [(⟨fun F _ _ => (F, F, F), (2 : ℚ)⟩ : Layer ℚ)] [[1]] [[1]] 1 1 =
      (∑ n ∈ Finset.range 1, ∑ d ∈ Finset.range 1,
        (∑ s ∈ Finset.range 1,
          (((varexpT (fun Fm _ _ => Fm)
              [(⟨fun F _ _ => (F, F, F), (2 : ℚ)⟩ : Layer ℚ)]
              [[1]] [[1]] 1).getD s []).getD n []).getD d 0) / ((1 : Nat) : ℚ))
      * (((1 : Nat) : ℚ) / (([[(1 : ℚ)]] : Mat ℚ).length : ℚ))
      - (([(⟨fun F _ _ => (F, F, F), (2 : ℚ)⟩ : Layer ℚ)]).map Layer.KL).sum := by
  constructor
  · decide
  · exact (dgp_C1 (fun Fm _ _ => Fm)
      [(⟨fun F _ _ => (F, F, F), (2 : ℚ)⟩ : Layer ℚ)] [[1]] [[1]] 1 1 1 1
      (by decide) (by decide)).1

/-- C2: for every 2-D input batch `X` and every sample count `S ≥ 1`
(with no `zs` argument supplied), `propagate` returns three lists
(samples, means, variances) each with exactly one entry per layer in
layer-sequence order; the first layer is fed `X` replicated into `S`
identical copies along a new leading sample axis, each subsequent layer
is fed the previous layer's sample tensor (not its mean), and — the
layer capabilities preserving the leading axis length — every returned
sample tensor has leading sample-axis length `S`. -/
theorem dgp_C2 {α : Type} (layers : List (Layer α)) (X : Mat α) (fc : Bool)
    (S : Nat) (hS : 1 ≤ S)
    (hpres : ∀ l ∈ layers, ∀ (F : T3 α) (z : Option (T3 α)) (c : Bool),
      ((l.sample_from_conditional F z c).1).length = F.length) :
    (propagate layers X fc S none).1.length = layers.length ∧
    (propagate layers X fc S none).2.1.length = layers.length ∧
    (propagate layers X fc S none).2.2.length = layers.length ∧
    (∀ (i : Nat) (h : i < layers.length),
      (propagate layers X fc S none).1.getD i [] =
        ((layers.get ⟨i, h⟩).sample_from_conditional
          (if i = 0 then List.replicate S X
            else (propagate layers X fc S none).1.getD (i - 1) []) none fc).1 ∧
      (propagate layers X fc S none).2.1.getD i [] =
        ((layers.get ⟨i, h⟩).sample_from_conditional
          (if i = 0 then List.replicate S X
            else (propagate layers X fc S none).1.getD (i - 1) []) none fc).2.1 ∧
      (propagate layers X fc S none).2.2.getD i [] =
        ((layers.get ⟨i, h⟩).sample_from_conditional
          (if i = 0 then List.replicate S X
            else (propagate layers X fc S none).1.getD (i - 1) []) none fc).2.2) ∧
    (∀ i, i < layers.length →
      ((propagate layers X fc S none).1.getD i []).length = S) := by
  rw [propagate_none]
  set pairs := layers.map (fun l => ((l : Layer α), (none : Option (T3 α)))) with hp
  have hlen : pairs.length = layers.length := by simp [hp]
  have hL := propLoop_length fc pairs (List.replicate S X)
  refine ⟨by rw [hL.1, hlen], by rw [hL.2.1, hlen], by rw [hL.2.2, hlen], ?_, ?_⟩
  · intro i h
    have hi : i < pairs.length := by rw [hlen]; exact h
    have hg : pairs.get ⟨i, hi⟩ = (layers.get ⟨i, h⟩, none) := by
      simp [hp, List.get_eq_getElem]
    have := propLoop_get fc pairs (List.replicate S X) i hi
    rw [hg] at this
    exact this
  · intro i h
    have hi : i < pairs.length := by rw [hlen]; exact h
    have hpres2 : ∀ p ∈ pairs, ∀ (G : T3 α) (z : Option (T3 α)) (c : Bool),
        ((p.1.sample_from_conditional G z c).1).length = G.length := by
      intro p hpmem
      rcases List.mem_map.mp hpmem with ⟨l, hl, rfl⟩
      exact hpres l hl
    have := propLoop_sample_len fc pairs (List.replicate S X) hpres2 i hi
    simpa using this

/-- Witness for C2: a concrete one-layer model with a length-preserving
sampling capability, a two-row input and `S = 2`. -/
theorem dgp_C2_witness :
    (propagate [(⟨fun F _ _ => (F, F, F), (0 : ℚ)⟩ : Layer ℚ)]
        [[1, 2], [3, 4]] false 2 none).1.length = 1 ∧
    ((propagate [(⟨fun F _ _ => (F, F, F), (0 : ℚ)⟩ : Layer ℚ)]
        [[1, 2], [3, 4]] false 2 none).1.getD 0 []).length = 2 := by
  have h := dgp_C2 [(⟨fun F _ _ => (F, F, F), (0 : ℚ)⟩ : Layer ℚ)]
    [[1, 2], [3, 4]] false 2 (by decide)
    (by
      intro l hl F z c
      rcases List.mem_singleton.mp hl with rfl
      rfl)
  exact ⟨h.1, h.2.2.2.2 0 (by decide)⟩

/-- C9: the forward pass is a deterministic function of its inputs and
the drawn noise: two runs of `propagate` on identical layer parameters,
input batch, `full_cov` flag, sample count and per-layer noise produce
identical sample, mean and variance tensors. -/
theorem dgp_C9 {α : Type} (layers₁ layers₂ : List (Layer α))
    (X₁ X₂ : Mat α) (fc₁ fc₂ : Bool) (S₁ S₂ : Nat)
    (zs₁ zs₂ : Option (List (Option (T3 α))))
    (hL : layers₁ = layers₂) (hX : X₁ = X₂) (hfc : fc₁ = fc₂)
    (hS : S₁ = S₂) (hzs : zs₁ = zs₂) :
    propagate layers₁ X₁ fc₁ S₁ zs₁ = propagate layers₂ X₂ fc₂ S₂ zs₂ := by
  rw [hL, hX, hfc, hS, hzs]

/-- Witness for C9: a concrete repeated run. -/
theorem dgp_C9_witness :
    propagate [(⟨fun F _ _ => (F, F, F), (0 : ℚ)⟩ : Layer ℚ)]
        [[1, 2]] false 3 none =
      propagate [(⟨fun F _ _ => (F, F, F), (0 : ℚ)⟩ : Layer ℚ)]
        [[1, 2]] false 3 none :=
  dgp_C9 _ _ _ _ _ _ _ _ _ _ rfl rfl rfl rfl rfl

/-- C10: an explicit non-empty `zs` list with fewer entries than there
are layers makes `propagate` silently stop after `zs.length` layers
(each returned list has length `zs.length`); `zs = None` and `zs = []`
are both falsy and replaced by one `None` per layer, so both run every
layer with `z = None`. -/
theorem dgp_C10 {α : Type} (layers : List (Layer α)) (X : Mat α)
    (fc : Bool) (S : Nat) (zs : List (Option (T3 α)))
    (hne : zs ≠ []) (hlt : zs.length < layers.length) :
    ((propagate layers X fc S (some zs)).1.length = zs.length ∧
     (propagate layers X fc S (some zs)).2.1.length = zs.length ∧
     (propagate layers X fc S (some zs)).2.2.length = zs.length) ∧
    propagate layers X fc S (some ([] : List (Option (T3 α)))) =
      propagate layers X fc S none ∧
    propagate layers X fc S none =
      propLoop fc (layers.map (fun l => (l, none))) (List.replicate S X) := by
  refine ⟨?_, rfl, propagate_none layers X fc S⟩
  have hzip : (layers.zip zs).length = zs.length := by
    rw [List.length_zip]
    exact min_eq_right (le_of_lt hlt)
  have heq : propagate layers X fc S (some zs) =
      propLoop fc (layers.zip zs) (List.replicate S X) := by
    show propLoop fc (layers.zip (if zs.isEmpty then _ else zs)) _ = _
    rw [List.isEmpty_eq_false.mpr hne]
    rfl
  rw [heq]
  have h := propLoop_length fc (layers.zip zs) (List.replicate S X)
  exact ⟨by rw [h.1, hzip], by rw [h.2.1, hzip], by rw [h.2.2, hzip]⟩

/-- Witness for C10: two layers, a single-entry `zs`. -/
theorem dgp_C10_witness :
    (propagate [(⟨fun F _ _ => (F, F, F), (0 : ℚ)⟩ : Layer ℚ),
        (⟨fun F _ _ => (F, F, F), (1 : ℚ)⟩ : Layer ℚ)]
      [[1, 2]] false 1 (some [none])).1.length = 1 := by
  have h := dgp_C10 [(⟨fun F _ _ => (F, F, F), (0 : ℚ)⟩ : Layer ℚ),
      (⟨fun F _ _ => (F, F, F), (1 : ℚ)⟩ : Layer ℚ)]
    [[1, 2]] false 1 [none] (by simp) (by decide)
  exact h.1.1

/-- C3: for every adjacent kernel pair `(k_in, k_out)` processed by the
layer-stack builder, the attached mean function is `Identity` when the
input dimensions match; when `d_in > d_out` it is a non-trainable
`Linear` whose weight matrix is the transpose of the top `d_out` rows of
the SVD right-factor of the running data matrix — columns orthonormal,
the SVD right-factor having orthonormal rows; and when `d_in < d_out`
it is a non-trainable `Linear` whose weight is the identity block
horizontally concatenated with zeros. -/
theorem dgp_C3 (svd : MatQ → MatQ) (pairs : List (Kernel × Kernel))
    (X Z : MatQ) (i : Nat) (h : i < pairs.length)
    (hVrect : ∀ r ∈ svd (runState svd X Z (pairs.take i)).1,
      r.length = colsM (svd (runState svd X Z (pairs.take i)).1))
    (hVlen : (pairAt pairs i).2.input_dim ≤
      (svd (runState svd X Z (pairs.take i)).1).length)
    (hVortho : OrthoRows (svd (runState svd X Z (pairs.take i)).1)
      (svd (runState svd X Z (pairs.take i)).1).length) :
    ((pairAt pairs i).1.input_dim = (pairAt pairs i).2.input_dim →
      ((innerLoop svd X Z pairs).1.getD i dummyBL).mf = MF.identity) ∧
    ((pairAt pairs i).1.input_dim > (pairAt pairs i).2.input_dim →
      ((innerLoop svd X Z pairs).1.getD i dummyBL).mf =
        MF.linear (transposeM ((svd (runState svd X Z (pairs.take i)).1).take
          (pairAt pairs i).2.input_dim)) false ∧
      OrthoCols (transposeM ((svd (runState svd X Z (pairs.take i)).1).take
          (pairAt pairs i).2.input_dim)) (pairAt pairs i).2.input_dim) ∧
    ((pairAt pairs i).1.input_dim < (pairAt pairs i).2.input_dim →
      ((innerLoop svd X Z pairs).1.getD i dummyBL).mf =
        MF.linear (hconcat (eyeM (pairAt pairs i).1.input_dim)
          (zerosM (pairAt pairs i).1.input_dim
            ((pairAt pairs i).2.input_dim - (pairAt pairs i).1.input_dim)))
          false) := by
  rw [innerLoop_get svd pairs X Z i h]
  refine ⟨?_, ?_, ?_⟩
  · intro heq
    simp [stepMF, heq]
  · intro hgt
    have hne : (pairAt pairs i).1.input_dim ≠ (pairAt pairs i).2.input_dim := by
      omega
    refine ⟨by simp [stepMF, hne, stepW, hgt], ?_⟩
    exact stepW_ortho _ _ hVrect hVlen hVortho
  · intro hlt
    have hne : (pairAt pairs i).1.input_dim ≠ (pairAt pairs i).2.input_dim := by
      omega
    have hngt : ¬(pairAt pairs i).1.input_dim > (pairAt pairs i).2.input_dim := by
      omega
    simp [stepMF, hne, stepW, hngt]

/-- Witness for C3: a dimension-reducing transition from a 2-D kernel to
a 1-D kernel, the SVD right-factor being the 2-by-2 identity. -/
theorem dgp_C3_witness :
    ((innerLoop (fun _ => [[1, 0], [0, 1]]) [[1, 0], [0, 1]] [[1, 2]]
        [(⟨2⟩, ⟨1⟩)]).1.getD 0 dummyBL).mf =
      MF.linear (transposeM (((fun (_ : MatQ) => ([[1, 0], [0, 1]] : MatQ))
        (runState (fun _ => [[1, 0], [0, 1]]) [[1, 0], [0, 1]] [[1, 2]]
          (List.take 0 [(⟨2⟩, ⟨1⟩)])).1).take 1)) false ∧
    OrthoCols (transposeM (((fun (_ : MatQ) => ([[1, 0], [0, 1]] : MatQ))
        (runState (fun _ => [[1, 0], [0, 1]]) [[1, 0], [0, 1]] [[1, 2]]
          (List.take 0 [(⟨2⟩, ⟨1⟩)])).1).take 1)) 1 := by
  have hortho : OrthoRows ((fun (_ : MatQ) => ([[1, 0], [0, 1]] : MatQ))
      (runState (fun _ => [[1, 0], [0, 1]]) [[1, 0], [0, 1]] [[1, 2]]
        (List.take 0 [(⟨2⟩, ⟨1⟩)])).1)
      ((fun (_ : MatQ) => ([[1, 0], [0, 1]] : MatQ))
        (runState (fun _ => [[1, 0], [0, 1]]) [[1, 0], [0, 1]] [[1, 2]]
          (List.take 0 [(⟨2⟩, ⟨1⟩)])).1).length := by
    intro i hi j hj
    have hi2 : i < 2 := by simpa using hi
    have hj2 : j < 2 := by simpa using hj
    interval_cases i <;> interval_cases j <;> norm_num [dotV, rowM]
  exact (dgp_C3 (fun _ => [[1, 0], [0, 1]]) [(⟨2⟩, ⟨1⟩)] [[1, 0], [0, 1]]
    [[1, 2]] 0 (by decide) (by decide) (by decide) hortho).2.1 (by decide)

/-- C4 counterexample: with kernels of input dimensions 2 and 1, data
matrix the 2-by-2 identity and inducing matrix `[[1, 2]]`, the layer
built for the first kernel receives the unprojected inducing matrix
`[[1, 2]]`, not its projection through `W` — so the claim that the
running inducing-location matrix is replaced before the layer is
constructed is false. -/
theorem dgp_C4_counterexample :
    ((innerLoop (fun _ => [[1, 0], [0, 1]]) [[1, 0], [0, 1]] [[1, 2]]
        [(⟨2⟩, ⟨1⟩)]).1.getD 0 dummyBL).Z = [[1, 2]] ∧
    ((innerLoop (fun _ => [[1, 0], [0, 1]]) [[1, 0], [0, 1]] [[1, 2]]
        [(⟨2⟩, ⟨1⟩)]).1.getD 0 dummyBL).Z ≠
      matMul [[1, 2]]
        (stepW (fun _ => [[1, 0], [0, 1]]) [[1, 0], [0, 1]] 2 1) := by
  refine ⟨rfl, ?_⟩
  have hm : matMul ([[1, 2]] : MatQ)
      (stepW (fun _ => [[1, 0], [0, 1]]) [[1, 0], [0, 1]] 2 1) = [[1]] := by
    norm_num [matMul, stepW, transposeM, colsM, colM, dotV, List.range_succ]
  rw [hm, show ((innerLoop (fun _ => [[1, 0], [0, 1]]) [[1, 0], [0, 1]] [[1, 2]]
    [(⟨2⟩, ⟨1⟩)]).1.getD 0 dummyBL).Z = [[1, 2]] from rfl]
  simp

/-- C4 amended: the replacement of the running matrices happens after
layer `i` is constructed: the layer built for kernel `k_in` receives the
pre-replacement running inducing-location matrix, and the
post-replacement matrices (the projections through `W` when the
dimensions differ) are what the subsequent iterations see. -/
theorem dgp_C4_amended (svd : MatQ → MatQ) (pairs : List (Kernel × Kernel))
    (X Z : MatQ) (i : Nat) (h : i < pairs.length) :
    ((innerLoop svd X Z pairs).1.getD i dummyBL).Z =
      (runState svd X Z (pairs.take i)).2 ∧
    runState svd X Z (pairs.take (i + 1)) =
      stepRun svd (runState svd X Z (pairs.take i)).1
        (runState svd X Z (pairs.take i)).2
        (pairAt pairs i).1.input_dim (pairAt pairs i).2.input_dim := by
  refine ⟨?_, runState_take_succ svd pairs X Z i h⟩
  rw [innerLoop_get svd pairs X Z i h]

/-- Witness for C4 amended: the dimension-reducing example. -/
theorem dgp_C4_amended_witness :
    ((innerLoop (fun _ => [[1, 0], [0, 1]]) [[1, 0], [0, 1]] [[1, 2]]
        [(⟨2⟩, ⟨1⟩)]).1.getD 0 dummyBL).Z =
      (runState (fun _ => [[1, 0], [0, 1]]) [[1, 0], [0, 1]] [[1, 2]]
        (List.take 0 [(⟨2⟩, ⟨1⟩)])).2 ∧
    runState (fun _ => [[1, 0], [0, 1]]) [[1, 0], [0, 1]] [[1, 2]]
        (List.take 1 [(⟨2⟩, ⟨1⟩)]) =
      stepRun (fun _ => [[1, 0], [0, 1]])
        (runState (fun _ => [[1, 0], [0, 1]]) [[1, 0], [0, 1]] [[1, 2]]
          (List.take 0 [(⟨2⟩, ⟨1⟩)])).1
        (runState (fun _ => [[1, 0], [0, 1]]) [[1, 0], [0, 1]] [[1, 2]]
          (List.take 0 [(⟨2⟩, ⟨1⟩)])).2
        (pairAt [(⟨2⟩, ⟨1⟩)] 0).1.input_dim
        (pairAt [(⟨2⟩, ⟨1⟩)] 0).2.input_dim :=
  dgp_C4_amended (fun _ => [[1, 0], [0, 1]]) [(⟨2⟩, ⟨1⟩)]
    [[1, 0], [0, 1]] [[1, 2]] 0 (by decide)

/-- C5: a dimension-changing transition multiplies both running matrices
on the right by the constructed `W` (and the projected inducing matrix
then has exactly `d_out` columns, as does the projected data matrix),
while a dimension-preserving transition leaves both unchanged. -/
theorem dgp_C5 (svd : MatQ → MatQ) (X Z : MatQ) (din dout : Nat)
    (hdin : 0 < din)
    (hVlen : dout ≤ (svd X).length)
    (hVc : 0 < colsM (svd X)) :
    (din = dout → stepRun svd X Z din dout = (X, Z)) ∧
    (din ≠ dout →
      stepRun svd X Z din dout =
        (matMul X (stepW svd X din dout), matMul Z (stepW svd X din dout)) ∧
      (∀ row ∈ matMul Z (stepW svd X din dout), row.length = dout) ∧
      (∀ row ∈ matMul X (stepW svd X din dout), row.length = dout)) := by
  have hW := colsM_stepW svd X din dout hdin hVlen hVc
  refine ⟨fun heq => by simp [stepRun, heq],
    fun hne => ⟨by simp [stepRun, hne], ?_, ?_⟩⟩
  all_goals
    intro row hrow
    unfold matMul at hrow
    rcases List.mem_map.mp hrow with ⟨r, _, rfl⟩
    rw [List.length_map, List.length_range, hW]

/-- Witness for C5: the dimension-reducing transition of the running
example. -/
theorem dgp_C5_witness :
    stepRun (fun _ => [[1, 0], [0, 1]]) [[1, 0], [0, 1]] [[1, 2]] 2 1 =
      (matMul [[1, 0], [0, 1]]
        (stepW (fun _ => [[1, 0], [0, 1]]) [[1, 0], [0, 1]] 2 1),
       matMul [[1, 2]]
        (stepW (fun _ => [[1, 0], [0, 1]]) [[1, 0], [0, 1]] 2 1)) ∧
    (∀ row ∈ matMul [[1, 2]]
        (stepW (fun _ => [[1, 0], [0, 1]]) [[1, 0], [0, 1]] 2 1),
      row.length = 1) ∧
    (∀ row ∈ matMul [[1, 0], [0, 1]]
        (stepW (fun _ => [[1, 0], [0, 1]]) [[1, 0], [0, 1]] 2 1),
      row.length = 1) :=
  (dgp_C5 (fun _ => [[1, 0], [0, 1]]) [[1, 0], [0, 1]] [[1, 2]] 2 1
    (by decide) (by decide) (by decide)).2 (by decide)

/-- C7: with a truthy `minibatch_size`, both data holders are seeded
minibatch holders with the same seed `0`, so at every draw step the `X`
batch and the `Y` batch have the same row count and corresponding rows
come from the same original dataset row (the one picked by the shared
deterministic index stream). -/
theorem dgp_C7 (gen : Nat → Nat → Nat → List Nat) (X Y : MatQ) (m : Nat)
    (hm : m ≠ 0)
    (hgen : ∀ seed bs t, (gen seed bs t).length = bs) :
    ∀ t : Nat,
      (((dgpBaseHolders X Y (some m)).1.current gen t).length =
        ((dgpBaseHolders X Y (some m)).2.current gen t).length) ∧
      ∀ i, i < m →
        ((dgpBaseHolders X Y (some m)).1.current gen t).getD i [] =
          X.getD ((gen 0 m t).getD i 0) [] ∧
        ((dgpBaseHolders X Y (some m)).2.current gen t).getD i [] =
          Y.getD ((gen 0 m t).getD i 0) [] := by
  intro t
  have hh : dgpBaseHolders X Y (some m) =
      (DataSrc.minibatch X m 0, DataSrc.minibatch Y m 0) := by
    simp [dgpBaseHolders, hm]
  rw [hh]
  refine ⟨by simp [DataSrc.current], ?_⟩
  intro i hi
  have hlen : i < (gen 0 m t).length := by rw [hgen]; exact hi
  constructor
  all_goals
    show ((gen 0 m t).map _).getD i [] = _
    rw [List.getD_eq_getElem _ _ (by simpa using hlen), List.getElem_map,
      List.getD_eq_getElem _ _ hlen]

/-- Witness for C7: a single-row minibatch over one-point datasets with
a constant index stream. -/
theorem dgp_C7_witness :
    (((dgpBaseHolders [[1]] [[2]] (some 1)).1.current
        (fun _ bs _ => List.replicate bs 0) 0).length =
      ((dgpBaseHolders [[1]] [[2]] (some 1)).2.current
        (fun _ bs _ => List.replicate bs 0) 0).length) ∧
    ((dgpBaseHolders [[1]] [[2]] (some 1)).1.current
        (fun _ bs _ => List.replicate bs 0) 0).getD 0 [] =
      ([[1]] : MatQ).getD
        (((fun (_ bs _ : Nat) => List.replicate bs 0) 0 1 0).getD 0 0) [] ∧
    ((dgpBaseHolders [[1]] [[2]] (some 1)).2.current
        (fun _ bs _ => List.replicate bs 0) 0).getD 0 [] =
      ([[2]] : MatQ).getD
        (((fun (_ bs _ : Nat) => List.replicate bs 0) 0 1 0).getD 0 0) [] := by
  have h := dgp_C7 (fun _ bs _ => List.replicate bs 0) [[1]] [[2]] 1
    (by decide) (fun _ bs _ => List.length_replicate bs 0) 0
  exact ⟨h.1, h.2 0 (by decide)⟩

/-- C8 counterexample: constructing a `DGP` with an empty kernel list
does not fail with a descriptive configuration error: it surfaces the
unrelated low-level `IndexError` from `kernels[-1]`. -/
theorem dgp_C8_counterexample :
    buildDGP (fun _ => [[1]]) [[1]] [[1]] [[1]] [] none MF.zero =
      Except.error PyErr.indexError ∧
    ¬ IsConfigError
      (buildDGP (fun _ => [[1]]) [[1]] [[1]] [[1]] [] none MF.zero) := by
  refine ⟨rfl, ?_⟩
  decide

/-- C8 amended: construction with an empty kernel list raises the
low-level Python `IndexError` (from `kernels[-1]`), not a descriptive
configuration error; an empty inducing-point set is not validated at
all — construction succeeds and hands the empty matrix to the layers. -/
theorem dgp_C8_amended (svd : MatQ → MatQ) (X Y Z : MatQ)
    (num_outputs : Option Nat) (mf : MF) :
    buildDGP svd X Y Z [] num_outputs mf = Except.error PyErr.indexError ∧
    ∀ kernels : List Kernel, kernels ≠ [] →
      ∃ ls, buildDGP svd X Y ([] : MatQ) kernels num_outputs mf =
        Except.ok ls := by
  refine ⟨rfl, ?_⟩
  intro kernels hk
  match hlast : kernels.getLast? with
  | none => exact absurd (List.getLast?_eq_none_iff.mp hlast) hk
  | some k =>
    exact ⟨_, by unfold buildDGP; rw [hlast]⟩

/-- Witness for C8 amended: a one-kernel model with an empty inducing
set. -/
theorem dgp_C8_amended_witness :
    buildDGP (fun _ => [[1]]) [[1]] [[1]] [[1]] [] none MF.zero =
      Except.error PyErr.indexError ∧
    ∃ ls, buildDGP (fun _ => [[1]]) [[1]] [[1]] ([] : MatQ) [⟨1⟩] none MF.zero =
      Except.ok ls :=
  ⟨(dgp_C8_amended (fun _ => [[1]]) [[1]] [[1]] [[1]] none MF.zero).1,
   (dgp_C8_amended (fun _ => [[1]]) [[1]] [[1]] [[1]] none MF.zero).2
     [⟨1⟩] (by simp)⟩

theorem logsumexp_replicate (S : Nat) (hS : 1 ≤ S) (v : ℝ) :
    logsumexp (List.replicate S (v - Real.log (S : ℝ))) = v := by
  unfold logsumexp
  rw [List.map_replicate, List.sum_replicate, nsmul_eq_mul]
  have hSne : ((S : ℕ) : ℝ) ≠ 0 := Nat.cast_ne_zero.mpr (by omega)
  rw [Real.log_mul hSne (Real.exp_ne_zero _), Real.log_exp]
  ring

theorem WF3_map3 {α β : Type} (t : T3 α) (S N D : Nat) (f : α → β)
    (hwf : WF3 t S N D) :
    WF3 (t.map (fun s => s.map (fun r => r.map f))) S N D := by
  obtain ⟨hlen, hsl⟩ := hwf
  refine ⟨by simpa using hlen, ?_⟩
  intro s hs
  rcases List.mem_map.mp hs with ⟨s0, hs0, rfl⟩
  obtain ⟨hsN, hrow⟩ := hsl s0 hs0
  refine ⟨by simpa using hsN, ?_⟩
  intro r hr
  rcases List.mem_map.mp hr with ⟨r0, hr0, rfl⟩
  simpa using hrow r0 hr0

theorem getD_map {α β : Type} (l : List α) (f : α → β) (i : Nat)
    (hi : i < l.length) (d : α) (d2 : β) :
    (l.map f).getD i d2 = f (l.getD i d) := by
  rw [List.getD_eq_getElem (l.map f) d2 (by simpa using hi),
    List.getD_eq_getElem l d hi, List.getElem_map]

theorem getD_range (k i : Nat) (hi : i < k) : (List.range k).getD i 0 = i := by
  rw [List.getD_eq_getElem (List.range k) 0 (by simpa using hi)]
  simp

theorem getD_map_map (s : Mat ℝ) (f : ℝ → ℝ) (n d N D : Nat)
    (hsN : s.length = N) (hn : n < N)
    (hrow : ∀ r ∈ s, r.length = D) (hd : d < D) :
    ((s.map (fun r => r.map f)).getD n []).getD d 0 =
      f ((s.getD n []).getD d 0) := by
  have hn2 : n < s.length := by omega
  rw [getD_map s (fun r => r.map f) n hn2 [] []]
  have hD : (s.getD n []).length = D := by
    refine hrow _ ?_
    rw [List.getD_eq_getElem s [] hn2]
    exact List.getElem_mem _
  exact getD_map (s.getD n []) f d (by omega) 0 0

theorem reduceLSE0_getD (t : T3 ℝ) (S N D n d : Nat) (hS : 1 ≤ S)
    (hwf : WF3 t S N D) (hn : n < N) (hd : d < D) :
    ((reduceLSE0 t).getD n []).getD d 0 =
      logsumexp (t.map (fun s => (s.getD n []).getD d 0)) := by
  obtain ⟨hlen, hsl⟩ := hwf
  have ht : t.headD [] ∈ t := by
    cases t with
    | nil => rw [List.length_nil] at hlen; omega
    | cons a l => simp
  have hN : (t.headD []).length = N := (hsl _ ht).1
  have hrowD : ((t.headD []).getD n []).length = D := by
    refine (hsl _ ht).2 _ ?_
    rw [List.getD_eq_getElem _ _ (hN ▸ hn)]
    exact List.getElem_mem _
  unfold reduceLSE0
  rw [getD_map (List.range (t.headD []).length)
    (fun n => (List.range ((t.headD []).getD n []).length).map
      (fun d => logsumexp (t.map (fun s => (s.getD n []).getD d 0)))) n
    (by rw [List.length_range, hN]; exact hn) 0 []]
  rw [getD_range (t.headD []).length n (by rw [hN]; exact hn)]
  rw [getD_map (List.range ((t.headD []).getD n []).length)
    (fun d => logsumexp (t.map (fun s => (s.getD n []).getD d 0))) d
    (by rw [List.length_range, hrowD]; exact hd) 0 0]
  rw [getD_range ((t.headD []).getD n []).length d (by rw [hrowD]; exact hd)]

/-- C6: `predict_density` returns the log-sum-exp over the sample axis
of the per-sample log predictive densities shifted by
`-log(num_samples)` — never a naive sum of probabilities — and
consequently, whenever all `S` per-sample log-densities at a point equal
the same value `v`, the combined result at that point equals `v`. -/
theorem dgp_C6 (likDensity : T3 ℝ → T3 ℝ → Mat ℝ → T3 ℝ)
    (layers : List (Layer ℝ)) (Xnew Ynew : Mat ℝ)
    (S N D n d : Nat) (v : ℝ) (hS : 1 ≤ S)
    (hwf : WF3 (likT likDensity layers Xnew Ynew S) S N D)
    (hn : n < N) (hd : d < D)
    (hv : ∀ s ∈ likT likDensity layers Xnew Ynew S,
      (s.getD n []).getD d 0 = v) :
    predict_density likDensity layers Xnew Ynew S =
      reduceLSE0 ((likT likDensity layers Xnew Ynew S).map (fun s =>
        s.map (fun r => r.map (fun x => x - Real.log (S : ℝ))))) ∧
    ((predict_density likDensity layers Xnew Ynew S).getD n []).getD d 0
      = v := by
  have hpd : predict_density likDensity layers Xnew Ynew S =
      reduceLSE0 ((likT likDensity layers Xnew Ynew S).map (fun s =>
        s.map (fun r => r.map (fun x => x - Real.log (S : ℝ))))) := rfl
  refine ⟨hpd, ?_⟩
  rw [hpd]
  have hwfm := WF3_map3 (likT likDensity layers Xnew Ynew S) S N D
    (fun x => x - Real.log (S : ℝ)) hwf
  rw [reduceLSE0_getD _ S N D n d hS hwfm hn hd]
  have hmap : ((likT likDensity layers Xnew Ynew S).map (fun s =>
        s.map (fun r => r.map (fun x => x - Real.log (S : ℝ))))).map
      (fun s => (s.getD n []).getD d 0) =
      List.replicate S (v - Real.log (S : ℝ)) := by
    rw [List.map_map]
    refine List.eq_replicate_iff.mpr ⟨by simpa using hwf.1, ?_⟩
    intro b hb
    rcases List.mem_map.mp hb with ⟨s, hs, rfl⟩
    obtain ⟨hsN, hrow⟩ := hwf.2 s hs
    simp only [Function.comp]
    rw [getD_map_map s _ n d N D hsN hn hrow hd, hv s hs]
  rw [hmap, logsumexp_replicate S hS v]

/-- Witness for C6: a one-layer model with a constant log-density of
zero and a single sample. -/
theorem dgp_C6_witness :
    ((predict_density (fun _ _ _ => [[[0]]])
        [(⟨fun F _ _ => (F, F, F), (0 : ℝ)⟩ : Layer ℝ)]
        [[0]] [[0]] 1).getD 0 []).getD 0 0 = 0 :=
  (dgp_C6 (fun _ _ _ => [[[0]]])
    [(⟨fun F _ _ => (F, F, F), (0 : ℝ)⟩ : Layer ℝ)]
    [[0]] [[0]] 1 1 1 0 0 0 (by omega)
    (by
      refine ⟨rfl, ?_⟩
      intro s hs
      simp only [likT, List.mem_singleton] at hs
      subst hs
      refine ⟨rfl, ?_⟩
      intro r hr
      simp only [List.mem_singleton] at hr
      subst hr
      rfl)
    (by omega) (by omega)
    (by
      intro s hs
      simp only [likT, List.mem_singleton] at hs
      subst hs
      rfl)).2

end DSDGP
